import Mathlib

/-!
Verification development for the FileMaker synchronization engine of the
cps-virtual-academy back end.

The embedding translates, from the TypeScript source:
  - the JS-object semantics used by the record transformer
    (src/controllers/syncSection.controller.ts, processFileMakerRecord);
  - the query-clause construction of the section controller sync
    (doSectionSync) and of the hub/student service syncs (syncHubs,
    syncStudent);
  - the pagination call lists (fetchAllRecords and the hub while loop);
  - the full section controller run and the hub service run as functions
    from an abstract remote to a result, a final local collection, and an
    ordered event trace;
  - the Mongo-side write primitives used by each family: bulkWrite
    upsert keyed by fileMakerRecordId (section) and plain document save
    against unique indexes (hub/studentEnroll);
  - the TokenManager (src/utils/utils.ts): getValidToken and
    makeAuthenticatedRequest with maxRetries = 1.
-/

namespace CpsSync

/-- Field values stored in a transformed record: strings coming from
FileMaker fieldData, local timestamps, and booleans for bookkeeping flags. -/
inductive Value where
  | str (s : String)
  | time (t : Nat)
  | flag (b : Bool)
  deriving DecidableEq, Repr

/-- A JS object, modelled as an association list of key/value pairs in
insertion order. Keys of objects built by the code below are unique. -/
abbrev Obj := List (String × Value)

/-- Property lookup: the entry for key k, if present. On objects with unique
keys this is exact JS property access. -/
def objGet (o : Obj) (k : String) : Option Value :=
  (o.find? (fun p => p.1 = k)).map (fun p => p.2)

/-- Property assignment as JS performs it: if the key is present, its value
is updated in place (keeping its position); otherwise the pair is appended. -/
def objSet (o : Obj) (k : String) (v : Value) : Obj :=
  if o.any (fun p => p.1 = k) then
    o.map (fun p => if p.1 = k then (k, v) else p)
  else
    o ++ [(k, v)]

/-- Object spread: assign every pair of ext onto o, left to right, as the JS
spread of ext into an object already holding o does. -/
def objSpread (o ext : Obj) : Obj :=
  ext.foldl (fun acc p => objSet acc p.1 p.2) o

/-- A remote record envelope returned by the Data API: field data plus the
remote record id and modification id. -/
structure Envelope where
  fieldData : List (String × String)
  recordId : String
  modId : String
  deriving DecidableEq, Repr

/-- The five bookkeeping keys attached by the section transformer. -/
def metaKeys : List String :=
  ["fileMakerRecordId", "fileMakerModId", "_mongoCreatedAt",
   "_mongoModifiedAt", "_mongoEdited"]

/-- The five bookkeeping pairs attached after the fieldData spread. -/
def metaPairs (now : Nat) (record : Envelope) : Obj :=
  [("fileMakerRecordId", Value.str record.recordId),
   ("fileMakerModId", Value.str record.modId),
   ("_mongoCreatedAt", Value.time now),
   ("_mongoModifiedAt", Value.time now),
   ("_mongoEdited", Value.flag false)]

/-- processFileMakerRecord from syncSection.controller.ts: spread fieldData,
then attach fileMakerRecordId, fileMakerModId, both timestamps (= now) and
the edited flag (= false). now is the clock value read inside the call. -/
def processFileMakerRecord (now : Nat) (record : Envelope) : Obj :=
  objSpread
    (objSpread [] (record.fieldData.map (fun p => (p.1, Value.str p.2))))
    (metaPairs now record)

/-- Date reformatting used by every sync: moment(date, "MMDDYYYY") rendered
back as "MM/DD/YYYY" inserts the two slashes. -/
def formatMMDDYYYY (s : String) : String :=
  s.take 2 ++ "/" ++ (s.drop 2).take 2 ++ "/" ++ s.drop 4

/-- A find-request query clause: a JS object of field/value pairs, possibly
carrying an omit marker pair. -/
abbrev Clause := List (String × String)

/-- The anti-feedback clause pushed by doSectionSync. -/
def sectionOmitClause : Clause :=
  [("ModifiedBy", "node-server"), ("omit", "true")]

/-- Query list assembled by doSectionSync: an optional modified-since clause
followed always by the omit clause for records last modified by node-server. -/
def sectionSyncQuery (date : Option String) : List Clause :=
  (match date with
   | some d => [[("zzModifiedTS", "≥" ++ formatMMDDYYYY d)]]
   | none => []) ++ [sectionOmitClause]

/-- Query list assembled by HubService.syncHubs: only the optional
modified-since clause, nothing else. -/
def hubSyncQuery (date : Option String) : List Clause :=
  match date with
  | some d => [[("ModificationTimestamp", "≥" ++ formatMMDDYYYY d)]]
  | none => []

/-- Query list assembled by StudentService.syncStudent: identical in shape
to the hub query, with no exclusion clause either. -/
def studentSyncQuery (date : Option String) : List Clause :=
  match date with
  | some d => [[("ModificationTimestamp", "≥" ++ formatMMDDYYYY d)]]
  | none => []

/-- Ceiling division as Math.ceil(totalCount / limit) computes it on
nonnegative integers. -/
def ceilDiv (a b : Nat) : Nat := (a + b - 1) / b

/-- The (limit, offset) pairs issued by fetchAllRecords in
syncSection.controller.ts: loopCounter = ceil(totalCount / limit) pages,
page index starting at 1, offset 1 for the first page and
(index - 1) * limit + 1 afterwards. The source fixes limit = 1000; the
limit is kept as a parameter of the loop shape. -/
def fetchAllRecordsCalls (limit totalCount : Nat) : List (Nat × Nat) :=
  (List.range (ceilDiv totalCount limit)).map (fun i =>
    let index := i + 1
    let offset := if index = 1 then 1 else (index - 1) * limit + 1
    (limit, offset))

/-- Structural-fuel unrolling of the hub while loop; the fuel argument only
bounds the iteration count so that the recursion is structural and the
kernel can evaluate it. -/
def hubLoopOffsetsAux : Nat → Nat → Nat → List Nat
  | 0, _, _ => []
  | fuel + 1, offset, totalRecords =>
      if offset ≤ totalRecords then
        offset :: hubLoopOffsetsAux fuel (offset + 2000) totalRecords
      else
        []

/-- Offsets issued by the hub service background loop:
for (offset = 1; offset <= totalRecords; offset += 2000). The loop runs at
most totalRecords + 1 times, so that much fuel is exact. -/
def hubLoopOffsets (offset totalRecords : Nat) : List Nat :=
  hubLoopOffsetsAux (totalRecords + 1) offset totalRecords

/-- dataInfo block of a find response. -/
structure DataInfo where
  foundCount : Nat
  returnedCount : Nat
  totalRecordCount : Nat
  deriving DecidableEq, Repr

/-- A find response as the sync code reads it: both the dataInfo block and
the data array may be absent from the nested payload. -/
structure FMResponse (ε : Type) where
  dataInfo : Option DataInfo
  data : Option (List ε)
  deriving DecidableEq, Repr

/-- The remote FileMaker database as one sync run observes it: the flattened
layout-name list served by the layouts endpoint, the response to the limit-1
probe find, and the response to each paginated find (by offset and limit). -/
structure Remote (ε : Type) where
  layoutNames : List String
  probe : FMResponse ε
  page : Nat → Nat → FMResponse ε

/-- getRecordCount from syncSection.controller.ts:
res?.dataInfo?.foundCount || 0. -/
def getRecordCount (res : FMResponse ε) : Nat :=
  match res.dataInfo with
  | some di => di.foundCount
  | none => 0

/-- One observable step of a sync run, in program order. -/
inductive SyncEvent where
  | layoutsCall
  | findCall (limit : Nat) (offset : Option Nat)
  | dbDelete
  | dbWrite
  | respond (count : Nat)
  deriving DecidableEq, Repr

/-- fetchAllRecords from syncSection.controller.ts: every page requested by
fetchAllRecordsCalls, its data array (or [] when absent) transformed through
processFileMakerRecord, concatenated across pages. -/
def fetchAllRecords (r : Remote Envelope) (now totalCount : Nat) : List Obj :=
  ((fetchAllRecordsCalls 1000 totalCount).map (fun c =>
    (((r.page c.2 c.1).data).getD []).map (processFileMakerRecord now))).flatten

/-- One bulkWrite updateOne op with upsert: true, filtered on
fileMakerRecordId: update every matching record with $set doc, or append the
document when no record matches. -/
def upsertOne (coll : List Obj) (doc : Obj) : List Obj :=
  if coll.any (fun d => decide
      (objGet d "fileMakerRecordId" = objGet doc "fileMakerRecordId")) then
    coll.map (fun d =>
      if objGet d "fileMakerRecordId" = objGet doc "fileMakerRecordId" then
        objSpread d doc
      else d)
  else
    coll ++ [doc]

/-- fetchAndUpdateSections load phase on an already-fetched document list:
purge deletes everything and bulk-inserts the set in 1000-document batches;
otherwise one bulkWrite of per-document upserts keyed by fileMakerRecordId.
Returns the new collection and the write events in order. -/
def fetchAndUpdateSections (purge : Bool) (docs : List Obj) (coll : List Obj) :
    List Obj × List SyncEvent :=
  if purge then
    (docs, SyncEvent.dbDelete ::
      (List.range (ceilDiv docs.length 1000)).map (fun _ => SyncEvent.dbWrite))
  else
    (docs.foldl upsertOne coll,
     if docs.length = 0 then [] else [SyncEvent.dbWrite])

/-- doSectionSync from syncSection.controller.ts: list layouts and fail when
the sections layout is missing; probe the count; stop at zero; otherwise
fetch every page and load, all before returning the count. The trace holds
every remote call and local write in program order. -/
def doSectionSync (r : Remote Envelope) (purge : Bool) (now : Nat)
    (coll : List Obj) : Except String Nat × List Obj × List SyncEvent :=
  if "sections" ∈ r.layoutNames then
    let totalCount := getRecordCount r.probe
    if totalCount = 0 then
      (Except.ok 0, coll, [SyncEvent.layoutsCall, SyncEvent.findCall 1 none])
    else
      let docs := fetchAllRecords r now totalCount
      let loaded := fetchAndUpdateSections purge docs coll
      (Except.ok totalCount, loaded.1,
        [SyncEvent.layoutsCall, SyncEvent.findCall 1 none] ++
        (fetchAllRecordsCalls 1000 totalCount).map
          (fun c => SyncEvent.findCall c.1 (some c.2)) ++
        loaded.2)
  else
    (Except.error "Layout sections does not exist in FileMaker database",
     coll, [SyncEvent.layoutsCall])

/-- The syncSections route handler: await doSectionSync in full, then send
the JSON response carrying the count. The respond event is therefore the
last event of a successful trace. -/
def syncSections (r : Remote Envelope) (purge : Bool) (now : Nat)
    (coll : List Obj) : Except String Nat × List Obj × List SyncEvent :=
  match doSectionSync r purge now coll with
  | (Except.ok n, c, tr) => (Except.ok n, c, tr ++ [SyncEvent.respond n])
  | (Except.error e, c, tr) => (Except.error e, c, tr)

/-- fieldData of a hub envelope; the four fields defaulted with || "" in the
source are optional here. -/
structure HubFieldData where
  ID : String
  CreationTimestamp : String
  CreatedBy : String
  ModificationTimestamp : String
  ModifiedBy : String
  umbrella : String
  course : String
  name : String
  classModel : Option String
  date_start : Option String
  date_end : Option String
  ModifiedByWeb : Option String
  deriving DecidableEq, Repr

/-- A hub record envelope from the remote API. -/
structure HubEnvelope where
  fieldData : HubFieldData
  recordId : String
  deriving DecidableEq, Repr

/-- A document of the local Hub collection (hub.model.ts), which carries
unique indexes on ID and on recordId. -/
structure HubDoc where
  ID : String
  CreationTimestamp : String
  CreatedBy : String
  ModificationTimestamp : String
  ModifiedBy : String
  umbrella : String
  course : String
  name : String
  classModel : String
  date_start : String
  date_end : String
  ModifiedByWeb : String
  recordId : String
  deriving DecidableEq, Repr

/-- The document built by syncHubs for one fetched envelope. -/
def hubDocOf (h : HubEnvelope) : HubDoc :=
  { ID := h.fieldData.ID
    CreationTimestamp := h.fieldData.CreationTimestamp
    CreatedBy := h.fieldData.CreatedBy
    ModificationTimestamp := h.fieldData.ModificationTimestamp
    ModifiedBy := h.fieldData.ModifiedBy
    umbrella := h.fieldData.umbrella
    course := h.fieldData.course
    name := h.fieldData.name
    classModel := h.fieldData.classModel.getD ""
    date_start := h.fieldData.date_start.getD ""
    date_end := h.fieldData.date_end.getD ""
    ModifiedByWeb := h.fieldData.ModifiedByWeb.getD ""
    recordId := h.recordId }

/-- One hubDoc.save(): a plain insert, rejected with a duplicate-key error
by the unique indexes when a stored document already carries the same ID or
the same recordId. The document is never updated in place. -/
def hubSave (coll : List HubDoc) (d : HubDoc) : List HubDoc :=
  if coll.any (fun x => decide (x.ID = d.ID) || decide (x.recordId = d.recordId)) then
    coll
  else
    coll ++ [d]

/-- The detached background block of syncHubs: page through the loop
offsets, purge when asked (even when nothing was fetched), then save every
fetched document. -/
def hubBackground (r : Remote HubEnvelope) (purge : Bool) (totalRecords : Nat)
    (coll : List HubDoc) : List HubDoc × List SyncEvent :=
  let offs := hubLoopOffsets 1 totalRecords
  let fetched := (offs.map (fun off => ((r.page off 2000).data).getD [])).flatten
  let start := if purge then ([] : List HubDoc) else coll
  ((fetched.map hubDocOf).foldl hubSave start,
   offs.map (fun off => SyncEvent.findCall 2000 (some off)) ++
   (if purge then [SyncEvent.dbDelete] else []) ++
   fetched.map (fun _ => SyncEvent.dbWrite))

/-- HubService.syncHubs: probe the count, return it to the caller at once,
and let the background block run detached afterwards. No layouts call is
ever made and the background block runs for every purge value. -/
def syncHubs (r : Remote HubEnvelope) (purge : Bool) (coll : List HubDoc) :
    Except String Nat × List HubDoc × List SyncEvent :=
  let totalRecords := getRecordCount r.probe
  let bg := hubBackground r purge totalRecords coll
  (Except.ok totalRecords, bg.1,
   SyncEvent.findCall 1 none :: SyncEvent.respond totalRecords :: bg.2)

/-- Token validity window of the TokenManager, in minutes. -/
def tokenValidityMinutes : Nat := 12

/-- The validity window in milliseconds: tokenAge is computed from
millisecond clock readings and compared against 12 minutes. -/
def validityMs : Nat := tokenValidityMinutes * 60 * 1000

/-- Cached-token state of a TokenManager instance. -/
structure TMState where
  token : Option String
  lastUsed : Option Nat
  deriving DecidableEq, Repr

/-- isTokenValid: false when no token or no last-use time is cached (an
empty token string is falsy in the source guard), else the age computed
from the last use must be under the validity window. -/
def isTokenValid (now : Nat) (s : TMState) : Bool :=
  match s.token, s.lastUsed with
  | some t, some lu => decide (t ≠ "") && decide (now - lu < validityMs)
  | _, _ => false

/-- authenticateAndGetToken with maxRetries = 1: one attempt against the
sessions endpoint, modelled by the auth argument (some granted token, or
none for any failure); on success the token is cached and its last-used
timestamp set to now. -/
def authenticateAndGetToken (auth : Option String) (now : Nat) (s : TMState) :
    Except String (String × TMState) :=
  match auth with
  | some t => Except.ok (t, { token := some t, lastUsed := some now })
  | none =>
      let _ := s
      Except.error "Failed to authenticate after 1 attempts"

/-- getValidToken: reuse the cached token when isTokenValid holds, resetting
its last-used timestamp; otherwise authenticate. The Bool records whether an
authentication request was issued. -/
def getValidToken (auth : Option String) (now : Nat) (s : TMState) :
    Except String (String × TMState) × Bool :=
  match s.token with
  | some t =>
      if isTokenValid now s then
        (Except.ok (t, { token := some t, lastUsed := some now }), false)
      else
        (authenticateAndGetToken auth now s, true)
  | none => (authenticateAndGetToken auth now s, true)

/-- Outcome of one invocation of the wrapped operation. -/
inductive OpOutcome (α : Type) where
  | ok (a : α)
  | unauthorized
  | otherFailure
  deriving DecidableEq, Repr

/-- Observable result of makeAuthenticatedRequest: the returned value or
thrown error, how many authentication requests were issued, how many times
the wrapped operation ran, and the cached token left behind. -/
structure MARResult (α : Type) where
  result : Except String α
  authCalls : Nat
  opCalls : Nat
  finalToken : Option String
  deriving Repr

/-- makeAuthenticatedRequest with maxRetries = 1. The operation is modelled
as a function of the call index and the token it was handed. A first
failure with status 401 clears the cached token, reauthenticates once
(auth2) and returns whatever the single retry produces, its own errors
propagating untouched; any other first failure is wrapped and thrown with
no retry. -/
def makeAuthenticatedRequest (auth1 auth2 : Option String) (now : Nat)
    (s : TMState) (op : Nat → String → OpOutcome α) : MARResult α :=
  match getValidToken auth1 now s with
  | (Except.error _, _) =>
      { result := Except.error "Request failed after 1 attempts",
        authCalls := 1, opCalls := 0, finalToken := s.token }
  | (Except.ok (t, s1), didAuth) =>
      let a0 := if didAuth then 1 else 0
      match op 0 t with
      | OpOutcome.ok v =>
          { result := Except.ok v, authCalls := a0, opCalls := 1,
            finalToken := s1.token }
      | OpOutcome.unauthorized =>
          (match authenticateAndGetToken auth2 now { s1 with token := none } with
           | Except.ok (t2, s2) =>
               (match op 1 t2 with
                | OpOutcome.ok v =>
                    { result := Except.ok v, authCalls := a0 + 1,
                      opCalls := 2, finalToken := s2.token }
                | OpOutcome.unauthorized =>
                    { result := Except.error "unauthorized",
                      authCalls := a0 + 1, opCalls := 2,
                      finalToken := s2.token }
                | OpOutcome.otherFailure =>
                    { result := Except.error "request error",
                      authCalls := a0 + 1, opCalls := 2,
                      finalToken := s2.token })
           | Except.error e =>
               { result := Except.error e, authCalls := a0 + 1,
                 opCalls := 1, finalToken := none })
      | OpOutcome.otherFailure =>
          { result := Except.error "Request failed after 1 attempts",
            authCalls := a0, opCalls := 1, finalToken := s1.token }

/-- The non-purge load of the section sync over already-transformed
envelopes: one upsert per envelope, in fetch order, keyed by
fileMakerRecordId. -/
def sectionUpsertRun (now : Nat) (envs : List Envelope) (coll : List Obj) :
    List Obj :=
  (envs.map (processFileMakerRecord now)).foldl upsertOne coll

/-- Key list of a JS object. -/
def keys (o : Obj) : List String := o.map Prod.fst

/-- Every entry of o carrying key k is exactly (k, v). This is the invariant
a JS property assignment establishes and later assignments to other keys
preserve. -/
def keyPinned (o : Obj) (k : String) (v : Value) : Prop :=
  ∀ p ∈ o, p.1 = k → p = (k, v)

/-- A one-record remote used for concrete runs of the section sync. -/
def env1 : Envelope := ⟨[("name", "a")], "101", "5"⟩

/-- Concrete section remote: the sections layout exists, the probe finds one
record, every page returns that record. -/
def sectionRemote1 : Remote Envelope :=
  ⟨["sections"], ⟨some ⟨1, 1, 101⟩, some [env1]⟩,
   fun _ _ => ⟨some ⟨1, 1, 101⟩, some [env1]⟩⟩

/-- A pre-existing local hub document. -/
def hubDoc0 : HubDoc :=
  ⟨"H1", "ts", "u", "ts", "u", "um", "c", "hub-a", "", "", "", "", "7"⟩

/-- Concrete hub remote with an empty layout list and a zero-count probe. -/
def hubRemote0 : Remote HubEnvelope :=
  ⟨[], ⟨some ⟨0, 0, 0⟩, some []⟩, fun _ _ => ⟨none, none⟩⟩

/-- fieldData of the stored version of a hub record. -/
def hubFieldA : HubFieldData :=
  ⟨"H1", "ts", "u", "ts2", "u2", "um", "c", "a", none, none, none, none⟩

/-- The same hub record with an updated name field. -/
def hubFieldB : HubFieldData := { hubFieldA with name := "b" }

/-- Envelope of the stored hub record. -/
def hubEnvA : HubEnvelope := ⟨hubFieldA, "7"⟩

/-- Envelope of the updated hub record: same recordId, new name. -/
def hubEnvB : HubEnvelope := ⟨hubFieldB, "7"⟩

/-- Concrete hub remote whose single page carries the updated record. -/
def hubRemoteB : Remote HubEnvelope :=
  ⟨["intg_hub"], ⟨some ⟨1, 1, 1⟩, some [hubEnvB]⟩,
   fun off _ =>
     if off = 1 then ⟨some ⟨1, 1, 1⟩, some [hubEnvB]⟩ else ⟨none, none⟩⟩

/-- A one-record envelope for the timestamp counterexample. -/
def env0 : Envelope := ⟨[("name", "a")], "9", "1"⟩

/-- Concrete section remote whose responses all lack dataInfo and data. -/
def sectionRemoteNone : Remote Envelope :=
  ⟨["sections"], ⟨none, none⟩, fun _ _ => ⟨none, none⟩⟩

/-- Concrete section remote whose layout list is missing the sections
layout. -/
def sectionRemoteMissing : Remote Envelope :=
  ⟨["other"], ⟨some ⟨1, 1, 1⟩, some [env1]⟩, fun _ _ => ⟨none, none⟩⟩

/-- Concrete wrapped operation: the first call is rejected as unauthorized,
the retry succeeds exactly when handed the reissued token. -/
def op5 : Nat → String → OpOutcome Nat := fun i tok =>
  if i = 0 then OpOutcome.unauthorized
  else if tok = "tokB" then OpOutcome.ok 7
  else OpOutcome.otherFailure

/-- C2, counterexample part: the hub service sync (here with no date cutoff,
the default trigger body) assembles a query with no omit clause at all, so
the claim that every entity sync excludes records last modified by
node-server fails on HubService.syncHubs. -/
theorem C2_counterexample :
    ¬ ∃ c ∈ hubSyncQuery none, ("omit", "true") ∈ c := by
  decide

/-- C2, amended: the section controller sync always carries the node-server
omit clause, with or without a date cutoff; the hub and student service
syncs never place an omit pair in any clause of their queries. -/
theorem C2_amended (date : Option String) :
    sectionOmitClause ∈ sectionSyncQuery date ∧
    (∀ c ∈ hubSyncQuery date, ("omit", "true") ∉ c) ∧
    (∀ c ∈ studentSyncQuery date, ("omit", "true") ∉ c) := by
  refine ⟨?_, ?_, ?_⟩ <;> cases date <;>
    simp [sectionSyncQuery, hubSyncQuery, studentSyncQuery]

/-- C2, witness: the amended statement applied to a concrete date and to the
concrete clause the hub and student queries then hold. -/
theorem C2_amended_witness :
    sectionOmitClause ∈ sectionSyncQuery none ∧
    ("omit", "true") ∉ ([("ModificationTimestamp", "≥01/02/2023")] : Clause) :=
  ⟨(C2_amended none).1,
   (C2_amended (some "01022023")).2.1 _ (by decide)⟩

/-- C10: a find response without a dataInfo block counts as zero records;
a section sync whose probe lacks dataInfo completes with total 0 and an
untouched collection; the hub sync likewise reports 0; and pagination pages
without a data field contribute no records. No case is an error. -/
theorem C10_lenient_payload :
    (∀ res : FMResponse Envelope, res.dataInfo = none → getRecordCount res = 0) ∧
    (∀ (r : Remote Envelope) (purge : Bool) (now : Nat) (coll : List Obj),
        "sections" ∈ r.layoutNames → r.probe.dataInfo = none →
        doSectionSync r purge now coll =
          (Except.ok 0, coll, [SyncEvent.layoutsCall, SyncEvent.findCall 1 none])) ∧
    (∀ (r : Remote HubEnvelope) (purge : Bool) (coll : List HubDoc),
        r.probe.dataInfo = none → (syncHubs r purge coll).1 = Except.ok 0) ∧
    (∀ (r : Remote Envelope) (now totalCount : Nat),
        (∀ off lim, (r.page off lim).data = none) →
        fetchAllRecords r now totalCount = []) := by
  refine ⟨?_, ?_, ?_, ?_⟩
  · intro res h
    simp [getRecordCount, h]
  · intro r purge now coll hmem hprobe
    simp [doSectionSync, getRecordCount, hprobe, hmem]
  · intro r purge coll hprobe
    simp [syncHubs, getRecordCount, hprobe]
  · intro r now totalCount hpages
    simp only [fetchAllRecords, List.flatten_eq_nil_iff, List.mem_map]
    rintro x ⟨c, hc, rfl⟩
    rw [hpages]
    rfl

/-- C10, witness: the lenient treatment evaluated on a concrete remote whose
responses all lack dataInfo and data. -/
theorem C10_lenient_payload_witness :
    getRecordCount sectionRemoteNone.probe = 0 ∧
    doSectionSync sectionRemoteNone false 0 [] =
      (Except.ok 0, [], [SyncEvent.layoutsCall, SyncEvent.findCall 1 none]) ∧
    fetchAllRecords sectionRemoteNone 0 5 = [] :=
  ⟨C10_lenient_payload.1 sectionRemoteNone.probe rfl,
   C10_lenient_payload.2.1 sectionRemoteNone false 0 [] (by decide) rfl,
   C10_lenient_payload.2.2.2 sectionRemoteNone 0 5 (fun _ _ => rfl)⟩

/-- C7, counterexample part: a zero-count hub sync with purge still deletes
every local hub document, so the run does write to local storage and local
storage is not left as it was. -/
theorem C7_counterexample :
    getRecordCount hubRemote0.probe = 0 ∧
    (syncHubs hubRemote0 true [hubDoc0]).2.1 = [] ∧
    [hubDoc0] ≠ ([] : List HubDoc) ∧
    SyncEvent.dbDelete ∈ (syncHubs hubRemote0 true [hubDoc0]).2.2 := by
  refine ⟨rfl, by decide, by decide, by decide⟩

/-- C7, amended: a zero probe count short-circuits the section sync with
total 0, no pagination call and no local write for either purge value; the
hub sync also reports 0 with no pagination call, and leaves the collection
untouched when purge is false, but with purge it still issues the delete
that empties the collection. -/
theorem C7_amended :
    (∀ (r : Remote Envelope) (purge : Bool) (now : Nat) (coll : List Obj),
        "sections" ∈ r.layoutNames → getRecordCount r.probe = 0 →
        doSectionSync r purge now coll =
          (Except.ok 0, coll, [SyncEvent.layoutsCall, SyncEvent.findCall 1 none])) ∧
    (∀ (r : Remote HubEnvelope) (coll : List HubDoc),
        getRecordCount r.probe = 0 →
        syncHubs r false coll =
          (Except.ok 0, coll, [SyncEvent.findCall 1 none, SyncEvent.respond 0]) ∧
        syncHubs r true coll =
          (Except.ok 0, [], [SyncEvent.findCall 1 none, SyncEvent.respond 0,
                             SyncEvent.dbDelete])) := by
  constructor
  · intro r purge now coll hmem hzero
    simp [doSectionSync, hmem, hzero]
  · intro r coll hzero
    constructor <;>
      simp [syncHubs, hubBackground, hzero, hubLoopOffsets, hubLoopOffsetsAux]

/-- C7, witness: the amended statement at concrete zero-count remotes. -/
theorem C7_amended_witness :
    doSectionSync sectionRemoteNone true 0 [] =
      (Except.ok 0, [], [SyncEvent.layoutsCall, SyncEvent.findCall 1 none]) ∧
    syncHubs hubRemote0 false [hubDoc0] =
      (Except.ok 0, [hubDoc0], [SyncEvent.findCall 1 none, SyncEvent.respond 0]) :=
  ⟨C7_amended.1 sectionRemoteNone true 0 [] (by decide) rfl,
   (C7_amended.2 hubRemote0 [hubDoc0] rfl).1⟩

/-- C8, counterexample part: the hub layout is absent from the remote layout
list, yet the hub sync does not fail before a find call: it issues the probe
find and completes, because syncHubs never checks the layout list. -/
theorem C8_counterexample :
    "intg_hub" ∉ hubRemote0.layoutNames ∧
    (syncHubs hubRemote0 false []).1 = Except.ok 0 ∧
    SyncEvent.findCall 1 none ∈ (syncHubs hubRemote0 false []).2.2 := by
  refine ⟨by decide, rfl, by decide⟩

/-- C8, amended: the section controller sync fails with an error naming the
missing layout before issuing any find call when the sections layout is
absent; the hub service sync never consults the layout list and always opens
with the probe find. -/
theorem C8_amended :
    (∀ (r : Remote Envelope) (purge : Bool) (now : Nat) (coll : List Obj),
        "sections" ∉ r.layoutNames →
        doSectionSync r purge now coll =
          (Except.error "Layout sections does not exist in FileMaker database",
           coll, [SyncEvent.layoutsCall]) ∧
        (∀ lim off, SyncEvent.findCall lim off ∉ (doSectionSync r purge now coll).2.2)) ∧
    (∀ (r : Remote HubEnvelope) (purge : Bool) (coll : List HubDoc),
        SyncEvent.layoutsCall ∉ (syncHubs r purge coll).2.2 ∧
        (syncHubs r purge coll).2.2.head? = some (SyncEvent.findCall 1 none)) := by
  constructor
  · intro r purge now coll hmem
    have hrun : doSectionSync r purge now coll =
        (Except.error "Layout sections does not exist in FileMaker database",
         coll, [SyncEvent.layoutsCall]) := by
      simp [doSectionSync, hmem]
    refine ⟨hrun, ?_⟩
    intro lim off
    rw [hrun]
    simp
  · intro r purge coll
    constructor
    · simp [syncHubs, hubBackground]
    · simp [syncHubs]

/-- C8, witness: the amended statement at a concrete remote without the
sections layout and at a concrete hub remote. -/
theorem C8_amended_witness :
    (doSectionSync sectionRemoteMissing false 0 []).2.2 = [SyncEvent.layoutsCall] ∧
    (syncHubs hubRemote0 true []).2.2.head? = some (SyncEvent.findCall 1 none) :=
  ⟨by rw [(C8_amended.1 sectionRemoteMissing false 0 [] (by decide)).1],
   (C8_amended.2 hubRemote0 true []).2⟩

/-- C1: at a concrete section trigger (no date, purge false, one remote
record) the handler trace places the page fetch and the database write
before the response event: the response is delayed until the full pipeline
has finished, contradicting the claim and the handler response message
about syncing in the background. -/
theorem C1_section_response_after_load :
    (syncSections sectionRemote1 false 0 []).2.2 =
      [SyncEvent.layoutsCall, SyncEvent.findCall 1 none,
       SyncEvent.findCall 1000 (some 1), SyncEvent.dbWrite, SyncEvent.respond 1] ∧
    List.indexOf SyncEvent.dbWrite (syncSections sectionRemote1 false 0 []).2.2 <
      List.indexOf (SyncEvent.respond 1) (syncSections sectionRemote1 false 0 []).2.2 := by
  refine ⟨by decide, by decide⟩

/-- C5: with a valid cached token, a first unauthorized failure of the
wrapped operation triggers exactly one reauthentication and exactly one
retry, handing the retry the new token and caching that token; the retry
result is returned as is, and a second unauthorized failure propagates as
an error with no further authentication or invocation. -/
theorem C5_unauthorized_retry {α : Type} (auth1 : Option String) (t2 : String)
    (now lu : Nat) (t : String) (op : Nat → String → OpOutcome α)
    (hne : t ≠ "") (hwin : now - lu < validityMs)
    (hop : op 0 t = OpOutcome.unauthorized) :
    (makeAuthenticatedRequest auth1 (some t2) now ⟨some t, some lu⟩ op).authCalls = 1 ∧
    (makeAuthenticatedRequest auth1 (some t2) now ⟨some t, some lu⟩ op).opCalls = 2 ∧
    (makeAuthenticatedRequest auth1 (some t2) now ⟨some t, some lu⟩ op).finalToken = some t2 ∧
    (∀ v, op 1 t2 = OpOutcome.ok v →
      (makeAuthenticatedRequest auth1 (some t2) now ⟨some t, some lu⟩ op).result =
        Except.ok v) ∧
    (op 1 t2 = OpOutcome.unauthorized →
      (makeAuthenticatedRequest auth1 (some t2) now ⟨some t, some lu⟩ op).result =
        Except.error "unauthorized") := by
  have hvalid : isTokenValid now ⟨some t, some lu⟩ = true := by
    simp [isTokenValid, hne, hwin]
  cases h1 : op 1 t2 <;>
    simp_all [makeAuthenticatedRequest, getValidToken, hvalid, hop,
      authenticateAndGetToken]

/-- C5, witness: the retry contract evaluated on the concrete operation op5
with a valid cached token. -/
theorem C5_unauthorized_retry_witness :
    (makeAuthenticatedRequest none (some "tokB") 1 ⟨some "tokA", some 0⟩ op5).authCalls = 1 ∧
    (makeAuthenticatedRequest none (some "tokB") 1 ⟨some "tokA", some 0⟩ op5).opCalls = 2 ∧
    (makeAuthenticatedRequest none (some "tokB") 1 ⟨some "tokA", some 0⟩ op5).result =
      Except.ok 7 :=
  have h := C5_unauthorized_retry (α := Nat) none "tokB" 1 0 "tokA" op5
    (by decide) (by decide) (by decide)
  ⟨h.1, h.2.1, h.2.2.2.1 7 (by decide)⟩

/-- C6: any successful getValidToken call leaves the cache holding the token
it returned with the last-used timestamp reset to the call time, and a
second call made while that token is still inside the sliding validity
window returns the same token string, issues no authentication request, and
again resets the last-used timestamp. -/
theorem C6_token_reuse (auth auth2 : Option String) (now1 now2 : Nat)
    (s s1 : TMState) (t : String) (b : Bool)
    (h1 : getValidToken auth now1 s = (Except.ok (t, s1), b))
    (hne : t ≠ "") (hwin : now2 - now1 < validityMs) :
    s1 = ⟨some t, some now1⟩ ∧
    getValidToken auth2 now2 s1 =
      (Except.ok (t, ⟨some t, some now2⟩), false) := by
  have hs1 : s1 = ⟨some t, some now1⟩ := by
    cases s with
    | mk tok lastu =>
      cases tok with
      | none =>
        cases auth with
        | none => simp [getValidToken, authenticateAndGetToken] at h1
        | some ta =>
            simp [getValidToken, authenticateAndGetToken] at h1
            obtain ⟨⟨rfl, h⟩, -⟩ := h1
            exact h.symm
      | some t0 =>
        by_cases hv : isTokenValid now1 ⟨some t0, lastu⟩
        · simp [getValidToken, hv] at h1
          obtain ⟨⟨rfl, h⟩, -⟩ := h1
          exact h.symm
        · cases auth with
          | none => simp [getValidToken, hv, authenticateAndGetToken] at h1
          | some ta =>
              simp [getValidToken, hv, authenticateAndGetToken] at h1
              obtain ⟨⟨rfl, h⟩, -⟩ := h1
              exact h.symm
  refine ⟨hs1, ?_⟩
  subst hs1
  have hvalid : isTokenValid now2 ⟨some t, some now1⟩ = true := by
    simp [isTokenValid, hne, hwin]
  simp [getValidToken, hvalid]

/-- C6, witness: a cold first call authenticates and caches the token; a
second call five milliseconds later reuses it with no authentication. -/
theorem C6_token_reuse_witness :
    getValidToken none 5 ⟨some "tok", some 0⟩ =
      (Except.ok ("tok", ⟨some "tok", some 5⟩), false) :=
  (C6_token_reuse (some "tok") none 0 5 ⟨none, none⟩ ⟨some "tok", some 0⟩
    "tok" true rfl (by decide) (by decide)).2

theorem ceilDiv_zero_left (b : Nat) : ceilDiv 0 b = 0 := by
  unfold ceilDiv
  rcases Nat.eq_zero_or_pos b with hb | hb
  · subst hb; rfl
  · exact Nat.div_eq_of_lt (by omega)

theorem ceilDiv_step (t : Nat) (ht : 1 ≤ t) :
    ceilDiv t 2000 = ceilDiv (t - 2000) 2000 + 1 := by
  unfold ceilDiv
  have h1 : t + 2000 - 1 = (t - 1) + 2000 := by omega
  rw [h1, Nat.add_div_right _ (by omega)]
  by_cases h2 : 2000 ≤ t
  · have h3 : t - 2000 + 2000 - 1 = t - 1 := by omega
    rw [h3]
  · have h3 : t - 2000 = 0 := by omega
    have h5 : (t - 1) / 2000 = 0 := Nat.div_eq_of_lt (by omega)
    have h6 : (0 + 2000 - 1) / 2000 = 0 := Nat.div_eq_of_lt (by omega)
    rw [h3, h5, h6]

theorem hubLoopOffsetsAux_eq (N : Nat) :
    ∀ fuel off, N + 1 ≤ off + 2000 * fuel →
      hubLoopOffsetsAux fuel off N =
        (List.range (ceilDiv (N + 1 - off) 2000)).map (fun i => off + i * 2000) := by
  intro fuel
  induction fuel with
  | zero =>
      intro off hoff
      have h0 : N + 1 - off = 0 := by omega
      rw [h0, ceilDiv_zero_left]
      rfl
  | succ fuel ih =>
      intro off hoff
      by_cases hle : off ≤ N
      · have ht : 1 ≤ N + 1 - off := by omega
        have harg : N + 1 - (off + 2000) = (N + 1 - off) - 2000 := by omega
        rw [show hubLoopOffsetsAux (fuel + 1) off N =
              (if off ≤ N then off :: hubLoopOffsetsAux fuel (off + 2000) N else []) from rfl,
            if_pos hle, ih (off + 2000) (by omega), harg,
            ceilDiv_step _ ht, List.range_succ_eq_map, List.map_cons, List.map_map]
        have hf : ((fun i => off + i * 2000) ∘ Nat.succ) =
            (fun i => (off + 2000) + i * 2000) := by
          funext i
          simp [Nat.succ_eq_add_one]
          ring
        rw [hf]
        simp
      · have h0 : N + 1 - off = 0 := by omega
        rw [show hubLoopOffsetsAux (fuel + 1) off N =
              (if off ≤ N then off :: hubLoopOffsetsAux fuel (off + 2000) N else []) from rfl,
            if_neg hle, h0, ceilDiv_zero_left]
        rfl

theorem hubLoopOffsets_eq_calls (N : Nat) :
    hubLoopOffsets 1 N = (fetchAllRecordsCalls 2000 N).map Prod.snd := by
  unfold hubLoopOffsets fetchAllRecordsCalls
  rw [hubLoopOffsetsAux_eq N (N + 1) 1 (by omega)]
  rw [List.map_map]
  have h1 : N + 1 - 1 = N := by omega
  rw [h1]
  have hf : (Prod.snd ∘ (fun i =>
      (2000, if i + 1 = 1 then 1 else (i + 1 - 1) * 2000 + 1) : Nat → Nat × Nat)) =
      (fun i => 1 + i * 2000) := by
    funext i
    rcases Nat.eq_zero_or_pos i with rfl | hi
    · simp
    · simp only [Function.comp]
      rw [if_neg (by omega)]
      have : i + 1 - 1 = i := by omega
      rw [this]
      omega
  rw [← hf]

theorem fetchAllRecordsCalls_length (C N : Nat) :
    (fetchAllRecordsCalls C N).length = ceilDiv N C := by
  simp [fetchAllRecordsCalls]

theorem fetchAllRecordsCalls_get (C N i : Nat)
    (h : i < (fetchAllRecordsCalls C N).length) :
    (fetchAllRecordsCalls C N).get ⟨i, h⟩ = (C, i * C + 1) := by
  simp only [fetchAllRecordsCalls, List.get_eq_getElem, List.getElem_map,
    List.getElem_range]
  rcases Nat.eq_zero_or_pos i with rfl | hi
  · simp
  · rw [if_neg (by omega)]
    have h1 : i + 1 - 1 = i := by omega
    rw [h1]

theorem ceilDiv_pos_eq (N C : Nat) (hN : 0 < N) (hC : 0 < C) :
    ceilDiv N C = (N - 1) / C + 1 := by
  unfold ceilDiv
  have h1 : N + C - 1 = (N - 1) + C := by omega
  rw [h1, Nat.add_div_right _ hC]

theorem pagination_cover (N C p : Nat) (hC : 0 < C) (hp1 : 1 ≤ p) (hpN : p ≤ N) :
    ∃! i, i < ceilDiv N C ∧ i * C + 1 ≤ p ∧ p ≤ i * C + C := by
  have hN : 0 < N := le_trans hp1 hpN
  refine ⟨(p - 1) / C, ⟨?_, ?_, ?_⟩, ?_⟩
  · rw [ceilDiv_pos_eq N C hN hC]
    have hd := Nat.div_le_div_right (c := C) (show p - 1 ≤ N - 1 by omega)
    omega
  · have hd := Nat.div_mul_le_self (p - 1) C
    omega
  · have hdm := Nat.div_add_mod (p - 1) C
    have hmlt : (p - 1) % C < C := Nat.mod_lt _ hC
    have hcomm : (p - 1) / C * C = C * ((p - 1) / C) := Nat.mul_comm _ _
    omega
  · intro j hj
    obtain ⟨hjlt, hj1, hj2⟩ := hj
    have hlow : j * C ≤ p - 1 := by omega
    have hhigh : p - 1 < (j + 1) * C := by
      have : (j + 1) * C = j * C + C := by ring
      omega
    exact (Nat.div_eq_of_lt_le hlow hhigh).symm


/-- C3: for a positive found count N and chunk size C the section pagination
loop issues exactly ceil(N/C) find calls, the i-th (0-based) with limit C
and 1-based offset i*C+1; every record position 1..N falls inside exactly
one requested page window; and the hub while loop issues exactly the same
offsets for its chunk size 2000. -/
theorem C3_pagination_coverage (N C : Nat) (hN : 0 < N) (hC : 0 < C) :
    (fetchAllRecordsCalls C N).length = ceilDiv N C ∧
    (∀ i, ∀ h : i < (fetchAllRecordsCalls C N).length,
        (fetchAllRecordsCalls C N).get ⟨i, h⟩ = (C, i * C + 1)) ∧
    (∀ p, 1 ≤ p → p ≤ N →
        ∃! i, i < ceilDiv N C ∧ i * C + 1 ≤ p ∧ p ≤ i * C + C) ∧
    hubLoopOffsets 1 N = (fetchAllRecordsCalls 2000 N).map Prod.snd := by
  refine ⟨fetchAllRecordsCalls_length C N,
    fun i h => fetchAllRecordsCalls_get C N i h,
    fun p hp1 hpN => pagination_cover N C p hC hp1 hpN,
    hubLoopOffsets_eq_calls N⟩

/-- C3, witness: coverage at N = 2001, C = 1000, including the edge page
boundaries and the agreement of the hub loop offsets. -/
theorem C3_pagination_coverage_witness :
    (fetchAllRecordsCalls 1000 2001).length = ceilDiv 2001 1000 ∧
    (∃! i, i < ceilDiv 2001 1000 ∧ i * 1000 + 1 ≤ 1500 ∧ 1500 ≤ i * 1000 + 1000) ∧
    hubLoopOffsets 1 2001 = (fetchAllRecordsCalls 2000 2001).map Prod.snd :=
  have h := C3_pagination_coverage 2001 1000 (by decide) (by decide)
  ⟨h.1, h.2.2.1 1500 (by decide) (by decide), h.2.2.2⟩

theorem listMapEqSelf {α : Type} (f : α → α) :
    ∀ (l : List α), l.map f = l → ∀ x ∈ l, f x = x := by
  intro l
  induction l with
  | nil => intro _ x hx; cases hx
  | cons a t ih =>
      intro h x hx
      rw [List.map_cons, List.cons.injEq] at h
      rcases List.mem_cons.mp hx with rfl | hx
      · exact h.1
      · exact ih h.2 x hx

theorem any_key_iff (o : Obj) (k : String) :
    (o.any (fun p => p.1 = k)) = true ↔ k ∈ keys o := by
  simp [keys, List.any_eq_true]

theorem mem_keys_objSet_self (o : Obj) (k : String) (v : Value) :
    k ∈ keys (objSet o k v) := by
  unfold objSet
  by_cases hc : (o.any (fun p => p.1 = k)) = true
  · rw [if_pos hc]
    have hk : k ∈ keys o := (any_key_iff o k).mp hc
    obtain ⟨p, hp, hpk⟩ := List.mem_map.mp hk
    refine List.mem_map.mpr ⟨(k, v), List.mem_map.mpr ⟨p, hp, ?_⟩, rfl⟩
    simp [hpk]
  · rw [if_neg hc]
    simp [keys]

theorem mem_keys_objSet_mono (o : Obj) (k a : String) (v : Value)
    (ha : a ∈ keys o) : a ∈ keys (objSet o k v) := by
  unfold objSet
  obtain ⟨p, hp, hpk⟩ := List.mem_map.mp ha
  by_cases hc : (o.any (fun p => p.1 = k)) = true
  · rw [if_pos hc]
    by_cases hpkk : p.1 = k
    · refine List.mem_map.mpr ⟨(k, v), List.mem_map.mpr ⟨p, hp, by simp [hpkk]⟩, ?_⟩
      rw [← hpk, hpkk]
    · exact List.mem_map.mpr ⟨p, List.mem_map.mpr ⟨p, hp, by simp [hpkk]⟩, hpk⟩
  · rw [if_neg hc]
    simp only [keys, List.map_append, List.mem_append]
    exact Or.inl (List.mem_map.mpr ⟨p, hp, hpk⟩)

theorem mem_keys_objSpread_mono (ext : Obj) :
    ∀ (o : Obj) (a : String), a ∈ keys o → a ∈ keys (objSpread o ext) := by
  induction ext with
  | nil => intro o a ha; exact ha
  | cons q rest ih =>
      intro o a ha
      exact ih (objSet o q.1 q.2) a (mem_keys_objSet_mono o q.1 a q.2 ha)

theorem mem_keys_objSpread_of_ext (ext : Obj) :
    ∀ (o : Obj) (a : String), a ∈ keys ext → a ∈ keys (objSpread o ext) := by
  induction ext with
  | nil => intro o a ha; cases ha
  | cons q rest ih =>
      intro o a ha
      rcases List.mem_cons.mp ha with h | h
      · subst h
        exact mem_keys_objSpread_mono rest (objSet o q.1 q.2) q.1
          (mem_keys_objSet_self o q.1 q.2)
      · exact ih (objSet o q.1 q.2) a h

theorem objSet_pinned_self (o : Obj) (k : String) (v : Value) :
    keyPinned (objSet o k v) k v := by
  intro p hp hpk
  unfold objSet at hp
  by_cases hc : (o.any (fun p => p.1 = k)) = true
  · rw [if_pos hc] at hp
    obtain ⟨q, hq, hqe⟩ := List.mem_map.mp hp
    by_cases hqk : q.1 = k
    · rw [if_pos hqk] at hqe
      exact hqe.symm
    · rw [if_neg hqk] at hqe
      subst hqe
      exact absurd hpk hqk
  · rw [if_neg hc] at hp
    rcases List.mem_append.mp hp with h | h
    · exact absurd ((any_key_iff o k).mpr (List.mem_map.mpr ⟨p, h, hpk⟩)) hc
    · simpa using h

theorem objSet_pinned_ne (o : Obj) (k a : String) (v w : Value)
    (hne : a ≠ k) (hpin : keyPinned o k v) :
    keyPinned (objSet o a w) k v := by
  intro p hp hpk
  unfold objSet at hp
  by_cases hc : (o.any (fun p => p.1 = a)) = true
  · rw [if_pos hc] at hp
    obtain ⟨q, hq, hqe⟩ := List.mem_map.mp hp
    by_cases hqa : q.1 = a
    · rw [if_pos hqa] at hqe
      rw [← hqe] at hpk
      simp at hpk
      exact absurd hpk hne
    · rw [if_neg hqa] at hqe
      subst hqe
      exact hpin q hq hpk
  · rw [if_neg hc] at hp
    rcases List.mem_append.mp hp with h | h
    · exact hpin p h hpk
    · have hpe : p = (a, w) := by simpa using h
      rw [hpe] at hpk
      simp at hpk
      exact absurd hpk hne

theorem listMapSelfOfId {α : Type} (f : α → α) :
    ∀ (l : List α), (∀ x ∈ l, f x = x) → l.map f = l := by
  intro l
  induction l with
  | nil => intro _; rfl
  | cons a t ih =>
      intro h
      rw [List.map_cons, h a (List.mem_cons_self a t),
        ih (fun x hx => h x (List.mem_cons_of_mem a hx))]

theorem listMapCongr {α β : Type} (f g : α → β) :
    ∀ (l : List α), (∀ x ∈ l, f x = g x) → l.map f = l.map g := by
  intro l
  induction l with
  | nil => intro _; rfl
  | cons a t ih =>
      intro h
      rw [List.map_cons, List.map_cons, h a (List.mem_cons_self a t),
        ih (fun x hx => h x (List.mem_cons_of_mem a hx))]

theorem objSpread_pinned (ext : Obj) :
    ∀ (o : Obj) (k : String) (v : Value),
      keyPinned o k v → keyPinned ext k v → keyPinned (objSpread o ext) k v := by
  induction ext with
  | nil => intro o k v ho _; exact ho
  | cons q rest ih =>
      intro o k v ho hext
      have hrest : keyPinned rest k v := fun p hp => hext p (List.mem_cons_of_mem q hp)
      show keyPinned (objSpread (objSet o q.1 q.2) rest) k v
      by_cases hqk : q.1 = k
      · have hq : q = (k, v) := hext q (List.mem_cons_self q rest) hqk
        rw [hq]
        exact ih (objSet o k v) k v (objSet_pinned_self o k v) hrest
      · exact ih (objSet o q.1 q.2) k v (objSet_pinned_ne o k q.1 v q.2 hqk ho) hrest

theorem objSpread_pinned_disjoint (ext : Obj) :
    ∀ (o : Obj) (k : String) (v : Value),
      k ∉ keys ext → keyPinned o k v → keyPinned (objSpread o ext) k v := by
  induction ext with
  | nil => intro o k v _ ho; exact ho
  | cons q rest ih =>
      intro o k v hk ho
      have hk2 : ¬(k = q.1 ∨ k ∈ keys rest) := by simpa [keys] using hk
      push_neg at hk2
      show keyPinned (objSpread (objSet o q.1 q.2) rest) k v
      exact ih (objSet o q.1 q.2) k v hk2.2
        (objSet_pinned_ne o k q.1 v q.2 (fun h => hk2.1 h.symm) ho)

theorem pinned_of_nodupKeys (ext : Obj) (k : String) (v : Value)
    (hnd : (keys ext).Nodup) (hmem : (k, v) ∈ ext) : keyPinned ext k v := by
  induction ext with
  | nil => cases hmem
  | cons q rest ih =>
      have hnd2 : q.1 ∉ keys rest ∧ (keys rest).Nodup := by simpa [keys] using hnd
      intro p hp hpk
      rcases List.mem_cons.mp hmem with hqv | hmem2
      · rcases List.mem_cons.mp hp with rfl | hp2
        · exact hqv.symm
        · exfalso
          apply hnd2.1
          rw [← hqv]
          exact List.mem_map.mpr ⟨p, hp2, hpk⟩
      · rcases List.mem_cons.mp hp with rfl | hp2
        · exfalso
          apply hnd2.1
          rw [hpk]
          exact List.mem_map.mpr ⟨(k, v), hmem2, rfl⟩
        · exact ih hnd2.2 hmem2 p hp2 hpk

theorem objSpread_pinned_of_mem (ext : Obj) :
    ∀ (o : Obj) (k : String) (v : Value),
      keyPinned ext k v → k ∈ keys ext → keyPinned (objSpread o ext) k v := by
  induction ext with
  | nil => intro o k v _ hmem; cases hmem
  | cons q rest ih =>
      intro o k v hpin hmem
      have hrest : keyPinned rest k v := fun p hp => hpin p (List.mem_cons_of_mem q hp)
      show keyPinned (objSpread (objSet o q.1 q.2) rest) k v
      by_cases hqk : q.1 = k
      · have hq : q = (k, v) := hpin q (List.mem_cons_self q rest) hqk
        by_cases hkr : k ∈ keys rest
        · exact ih (objSet o q.1 q.2) k v hrest hkr
        · rw [hq]
          exact objSpread_pinned_disjoint rest (objSet o k v) k v hkr
            (objSet_pinned_self o k v)
      · have hor : k = q.1 ∨ k ∈ keys rest := by simpa [keys] using hmem
        have hkr : k ∈ keys rest := hor.resolve_left (fun h => hqk h.symm)
        exact ih (objSet o q.1 q.2) k v hrest hkr

theorem objGet_of_pinned (o : Obj) (k : String) (v : Value)
    (hpin : keyPinned o k v) (hmem : k ∈ keys o) : objGet o k = some v := by
  unfold objGet
  obtain ⟨p, hp, hpk⟩ := List.mem_map.mp hmem
  have hsome : (o.find? (fun p => p.1 = k)).isSome := by
    rw [List.find?_isSome]
    exact ⟨p, hp, by simp [hpk]⟩
  obtain ⟨q, hq⟩ := Option.isSome_iff_exists.mp hsome
  have hqk : q.1 = k := by simpa using List.find?_some hq
  have hqo : q ∈ o := List.mem_of_find?_eq_some hq
  rw [hq]
  simp [hpin q hqo hqk]

theorem objGet_objSpread_of_mem (ext o : Obj) (k : String) (v : Value)
    (hpin : keyPinned ext k v) (hmem : k ∈ keys ext) :
    objGet (objSpread o ext) k = some v :=
  objGet_of_pinned (objSpread o ext) k v
    (objSpread_pinned_of_mem ext o k v hpin hmem)
    (mem_keys_objSpread_of_ext ext o k hmem)

theorem objSet_absorb (o : Obj) (k : String) (v : Value)
    (hpin : keyPinned o k v) (hmem : k ∈ keys o) : objSet o k v = o := by
  unfold objSet
  rw [if_pos ((any_key_iff o k).mpr hmem)]
  apply listMapSelfOfId
  intro p hp
  by_cases hpk : p.1 = k
  · rw [if_pos hpk, hpin p hp hpk]
  · rw [if_neg hpk]

theorem objSpread_absorb (ext : Obj) :
    ∀ (o : Obj), (∀ p ∈ ext, keyPinned o p.1 p.2 ∧ p.1 ∈ keys o) →
      objSpread o ext = o := by
  induction ext with
  | nil => intro o _; rfl
  | cons q rest ih =>
      intro o h
      show objSpread (objSet o q.1 q.2) rest = o
      rw [objSet_absorb o q.1 q.2 (h q (List.mem_cons_self q rest)).1
        (h q (List.mem_cons_self q rest)).2]
      exact ih o (fun p hp => h p (List.mem_cons_of_mem q hp))

theorem objSpread_absorb_double (x doc : Obj) (hnd : (keys doc).Nodup) :
    objSpread (objSpread x doc) doc = objSpread x doc := by
  apply objSpread_absorb
  intro p hp
  exact ⟨objSpread_pinned_of_mem doc x p.1 p.2
      (pinned_of_nodupKeys doc p.1 p.2 hnd hp)
      (List.mem_map.mpr ⟨p, hp, rfl⟩),
    mem_keys_objSpread_of_ext doc x p.1 (List.mem_map.mpr ⟨p, hp, rfl⟩)⟩

theorem keys_metaPairs (now : Nat) (env : Envelope) :
    keys (metaPairs now env) = metaKeys := rfl

theorem metaPairs_nodup (now : Nat) (env : Envelope) :
    (keys (metaPairs now env)).Nodup := by
  rw [keys_metaPairs]
  decide

theorem processed_get_meta (now : Nat) (env : Envelope) (k : String) (v : Value)
    (hmem : (k, v) ∈ metaPairs now env) :
    objGet (processFileMakerRecord now env) k = some v := by
  unfold processFileMakerRecord
  exact objGet_objSpread_of_mem (metaPairs now env) _ k v
    (pinned_of_nodupKeys _ k v (metaPairs_nodup now env) hmem)
    (List.mem_map.mpr ⟨(k, v), hmem, rfl⟩)

theorem processed_get_rid (now : Nat) (env : Envelope) :
    objGet (processFileMakerRecord now env) "fileMakerRecordId" =
      some (Value.str env.recordId) :=
  processed_get_meta now env _ _ (by simp [metaPairs])

theorem processed_get_field (now : Nat) (env : Envelope) (k : String) (v : String)
    (hnd : (env.fieldData.map Prod.fst).Nodup)
    (hdisj : ∀ a ∈ env.fieldData.map Prod.fst, a ∉ metaKeys)
    (hmem : (k, v) ∈ env.fieldData) :
    objGet (processFileMakerRecord now env) k = some (Value.str v) := by
  unfold processFileMakerRecord
  set fd : Obj := env.fieldData.map (fun p => (p.1, Value.str p.2)) with hfd
  have hkeysfd : keys fd = env.fieldData.map Prod.fst := by
    simp [hfd, keys, List.map_map]
  have hndfd : (keys fd).Nodup := by rw [hkeysfd]; exact hnd
  have hmemfd : (k, Value.str v) ∈ fd :=
    List.mem_map.mpr ⟨(k, v), hmem, rfl⟩
  have hkmem : k ∈ keys fd :=
    List.mem_map.mpr ⟨(k, Value.str v), hmemfd, rfl⟩
  have hkdisj : k ∉ keys (metaPairs now env) := by
    rw [keys_metaPairs]
    exact hdisj k (by rw [← hkeysfd]; exact hkmem)
  have hpin : keyPinned (objSpread [] fd) k (Value.str v) :=
    objSpread_pinned_of_mem fd [] k (Value.str v)
      (pinned_of_nodupKeys fd k (Value.str v) hndfd hmemfd) hkmem
  exact objGet_of_pinned _ k (Value.str v)
    (objSpread_pinned_disjoint (metaPairs now env) _ k (Value.str v) hkdisj hpin)
    (mem_keys_objSpread_mono (metaPairs now env) _ k
      (mem_keys_objSpread_of_ext fd [] k hkmem))

/-- C9: on an envelope whose fieldData keys are distinct and disjoint from
the five bookkeeping keys, the transformed record holds every fieldData
key with its value, fileMakerRecordId = recordId, fileMakerModId = modId,
both timestamps equal to the clock value and the edited flag false; and the
transformer is a pure function of the clock and the envelope, so it cannot
mutate its input and two applications to the same envelope yield the same
mapping. -/
theorem C9_transformer (now : Nat) (env : Envelope)
    (hnd : (env.fieldData.map Prod.fst).Nodup)
    (hdisj : ∀ a ∈ env.fieldData.map Prod.fst, a ∉ metaKeys) :
    (∀ k v, (k, v) ∈ env.fieldData →
        objGet (processFileMakerRecord now env) k = some (Value.str v)) ∧
    objGet (processFileMakerRecord now env) "fileMakerRecordId" =
      some (Value.str env.recordId) ∧
    objGet (processFileMakerRecord now env) "fileMakerModId" =
      some (Value.str env.modId) ∧
    objGet (processFileMakerRecord now env) "_mongoCreatedAt" =
      some (Value.time now) ∧
    objGet (processFileMakerRecord now env) "_mongoModifiedAt" =
      some (Value.time now) ∧
    objGet (processFileMakerRecord now env) "_mongoEdited" =
      some (Value.flag false) ∧
    (∀ now2 env2, now2 = now → env2 = env →
        processFileMakerRecord now2 env2 = processFileMakerRecord now env) := by
  refine ⟨fun k v hm => processed_get_field now env k v hnd hdisj hm,
    processed_get_rid now env,
    processed_get_meta now env _ _ (by simp [metaPairs]),
    processed_get_meta now env _ _ (by simp [metaPairs]),
    processed_get_meta now env _ _ (by simp [metaPairs]),
    processed_get_meta now env _ _ (by simp [metaPairs]),
    fun now2 env2 h1 h2 => by rw [h1, h2]⟩

/-- C9, witness: the transformer evaluated on the concrete envelope env1. -/
theorem C9_transformer_witness :
    objGet (processFileMakerRecord 0 env1) "name" = some (Value.str "a") ∧
    objGet (processFileMakerRecord 0 env1) "fileMakerRecordId" =
      some (Value.str "101") ∧
    objGet (processFileMakerRecord 0 env1) "_mongoEdited" =
      some (Value.flag false) :=
  have h := C9_transformer 0 env1 (by decide) (by decide)
  ⟨h.1 "name" "a" (by decide), h.2.1, h.2.2.2.2.2.1⟩

theorem objSpread_self (doc : Obj) (hnd : (keys doc).Nodup) :
    objSpread doc doc = doc := by
  apply objSpread_absorb
  intro p hp
  exact ⟨pinned_of_nodupKeys doc p.1 p.2 hnd hp,
    List.mem_map.mpr ⟨p, hp, rfl⟩⟩

theorem objGet_objSpread_rid (x doc : Obj)
    (hnd : (keys doc).Nodup) (hrid : "fileMakerRecordId" ∈ keys doc) :
    objGet (objSpread x doc) "fileMakerRecordId" =
      objGet doc "fileMakerRecordId" := by
  obtain ⟨p, hp, hpk⟩ := List.mem_map.mp hrid
  have hpe : p = ("fileMakerRecordId", p.2) := by rw [← hpk]
  have hppair : ("fileMakerRecordId", p.2) ∈ doc := by rw [← hpe]; exact hp
  have hpin := pinned_of_nodupKeys doc _ p.2 hnd hppair
  rw [objGet_objSpread_of_mem doc x _ p.2 hpin hrid,
    objGet_of_pinned doc _ p.2 hpin hrid]

theorem upsert_absorbed_any (L : List Obj) (doc : Obj)
    (habs : upsertOne L doc = L) :
    (L.any (fun d => decide
      (objGet d "fileMakerRecordId" = objGet doc "fileMakerRecordId"))) = true := by
  by_cases hc : (L.any (fun d => decide
      (objGet d "fileMakerRecordId" = objGet doc "fileMakerRecordId"))) = true
  · exact hc
  · exfalso
    unfold upsertOne at habs
    rw [if_neg hc] at habs
    have hl := congrArg List.length habs
    simp at hl

theorem upsert_absorbed_pointwise (L : List Obj) (doc : Obj)
    (habs : upsertOne L doc = L) :
    ∀ d ∈ L, (if objGet d "fileMakerRecordId" = objGet doc "fileMakerRecordId"
              then objSpread d doc else d) = d := by
  have hany := upsert_absorbed_any L doc habs
  unfold upsertOne at habs
  rw [if_pos hany] at habs
  exact listMapEqSelf _ L habs

theorem upsertOne_absorb (coll : List Obj) (doc : Obj)
    (hnd : (keys doc).Nodup) (hrid : "fileMakerRecordId" ∈ keys doc) :
    upsertOne (upsertOne coll doc) doc = upsertOne coll doc := by
  by_cases hc : (coll.any (fun d => decide
      (objGet d "fileMakerRecordId" = objGet doc "fileMakerRecordId"))) = true
  · have h1 : upsertOne coll doc = coll.map (fun d =>
        if objGet d "fileMakerRecordId" = objGet doc "fileMakerRecordId"
        then objSpread d doc else d) := by
      unfold upsertOne
      rw [if_pos hc]
    obtain ⟨d0, hd0, hd0m⟩ := List.any_eq_true.mp hc
    have hd0m2 : objGet d0 "fileMakerRecordId" = objGet doc "fileMakerRecordId" :=
      of_decide_eq_true hd0m
    rw [h1]
    unfold upsertOne
    have hany2 : ((coll.map (fun d =>
        if objGet d "fileMakerRecordId" = objGet doc "fileMakerRecordId"
        then objSpread d doc else d)).any (fun d => decide
          (objGet d "fileMakerRecordId" = objGet doc "fileMakerRecordId"))) = true := by
      apply List.any_eq_true.mpr
      refine ⟨objSpread d0 doc, List.mem_map.mpr ⟨d0, hd0, by rw [if_pos hd0m2]⟩, ?_⟩
      exact decide_eq_true (objGet_objSpread_rid d0 doc hnd hrid)
    rw [if_pos hany2, List.map_map]
    apply listMapCongr
    intro d hd
    simp only [Function.comp]
    by_cases hm : objGet d "fileMakerRecordId" = objGet doc "fileMakerRecordId"
    · rw [if_pos hm, if_pos (objGet_objSpread_rid d doc hnd hrid),
        objSpread_absorb_double d doc hnd]
    · rw [if_neg hm, if_neg hm]
  · have h1 : upsertOne coll doc = coll ++ [doc] := by
      unfold upsertOne
      rw [if_neg hc]
    rw [h1]
    unfold upsertOne
    have hany2 : ((coll ++ [doc]).any (fun d => decide
        (objGet d "fileMakerRecordId" = objGet doc "fileMakerRecordId"))) = true := by
      simp [List.any_append]
    rw [if_pos hany2, List.map_append]
    congr 1
    · apply listMapSelfOfId
      intro d hd
      rw [if_neg ?hneg]
      case hneg =>
        intro hm
        exact hc (List.any_eq_true.mpr ⟨d, hd, decide_eq_true hm⟩)
    · simp only [List.map_cons, List.map_nil]
      rw [if_pos trivial, objSpread_self doc hnd]

theorem upsertOne_absorb_other (L : List Obj) (doc doc2 : Obj)
    (hnd2 : (keys doc2).Nodup) (hrid2 : "fileMakerRecordId" ∈ keys doc2)
    (hdiff : objGet doc2 "fileMakerRecordId" ≠ objGet doc "fileMakerRecordId")
    (habs : upsertOne L doc = L) :
    upsertOne (upsertOne L doc2) doc = upsertOne L doc2 := by
  have hany := upsert_absorbed_any L doc habs
  have hpt := upsert_absorbed_pointwise L doc habs
  obtain ⟨d0, hd0, hd0m⟩ := List.any_eq_true.mp hany
  have hd0m2 : objGet d0 "fileMakerRecordId" = objGet doc "fileMakerRecordId" :=
    of_decide_eq_true hd0m
  by_cases hc2 : (L.any (fun d => decide
      (objGet d "fileMakerRecordId" = objGet doc2 "fileMakerRecordId"))) = true
  · have h1 : upsertOne L doc2 = L.map (fun d =>
        if objGet d "fileMakerRecordId" = objGet doc2 "fileMakerRecordId"
        then objSpread d doc2 else d) := by
      unfold upsertOne
      rw [if_pos hc2]
    rw [h1]
    unfold upsertOne
    have hd0ne : ¬ (objGet d0 "fileMakerRecordId" = objGet doc2 "fileMakerRecordId") := by
      intro h
      exact hdiff (h.symm.trans hd0m2)
    have hany2 : ((L.map (fun d =>
        if objGet d "fileMakerRecordId" = objGet doc2 "fileMakerRecordId"
        then objSpread d doc2 else d)).any (fun d => decide
          (objGet d "fileMakerRecordId" = objGet doc "fileMakerRecordId"))) = true := by
      apply List.any_eq_true.mpr
      refine ⟨d0, List.mem_map.mpr ⟨d0, hd0, by rw [if_neg hd0ne]⟩, hd0m⟩
    rw [if_pos hany2, List.map_map]
    apply listMapCongr
    intro d hd
    simp only [Function.comp]
    by_cases hm2 : objGet d "fileMakerRecordId" = objGet doc2 "fileMakerRecordId"
    · rw [if_pos hm2]
      have hsp : objGet (objSpread d doc2) "fileMakerRecordId" =
          objGet doc2 "fileMakerRecordId" :=
        objGet_objSpread_rid d doc2 hnd2 hrid2
      rw [if_neg ?hx]
      case hx =>
        intro h
        apply hdiff
        rw [← hsp]
        exact h
    · rw [if_neg hm2]
      exact hpt d hd
  · have h1 : upsertOne L doc2 = L ++ [doc2] := by
      unfold upsertOne
      rw [if_neg hc2]
    rw [h1]
    unfold upsertOne
    have hany2 : ((L ++ [doc2]).any (fun d => decide
        (objGet d "fileMakerRecordId" = objGet doc "fileMakerRecordId"))) = true := by
      rw [List.any_append]
      simp [hany]
    rw [if_pos hany2, List.map_append]
    congr 1
    · exact listMapSelfOfId _ L hpt
    · simp only [List.map_cons, List.map_nil]
      rw [if_neg hdiff]

theorem foldl_upsert_absorb (docs : List Obj) :
    ∀ (L : List Obj) (doc : Obj),
      (∀ d ∈ docs, (keys d).Nodup ∧ "fileMakerRecordId" ∈ keys d ∧
        objGet d "fileMakerRecordId" ≠ objGet doc "fileMakerRecordId") →
      upsertOne L doc = L →
      upsertOne (docs.foldl upsertOne L) doc = docs.foldl upsertOne L := by
  induction docs with
  | nil => intro L doc _ habs; exact habs
  | cons d2 rest ih =>
      intro L doc hyp habs
      show upsertOne (rest.foldl upsertOne (upsertOne L d2)) doc = _
      exact ih (upsertOne L d2) doc
        (fun d hd => hyp d (List.mem_cons_of_mem d2 hd))
        (upsertOne_absorb_other L doc d2
          (hyp d2 (List.mem_cons_self d2 rest)).1
          (hyp d2 (List.mem_cons_self d2 rest)).2.1
          (hyp d2 (List.mem_cons_self d2 rest)).2.2 habs)

theorem foldl_upsert_run_absorbs (docs : List Obj) :
    ∀ (L : List Obj),
      (∀ d ∈ docs, (keys d).Nodup ∧ "fileMakerRecordId" ∈ keys d) →
      docs.Pairwise (fun a b =>
        objGet a "fileMakerRecordId" ≠ objGet b "fileMakerRecordId") →
      ∀ doc ∈ docs,
        upsertOne (docs.foldl upsertOne L) doc = docs.foldl upsertOne L := by
  induction docs with
  | nil => intro L _ _ doc hd; cases hd
  | cons d rest ih =>
      intro L hwf hpw doc hdoc
      rw [List.pairwise_cons] at hpw
      show upsertOne (rest.foldl upsertOne (upsertOne L d)) doc = _
      rcases List.mem_cons.mp hdoc with rfl | hdoc2
      · apply foldl_upsert_absorb rest (upsertOne L doc) doc
        · intro d2 hd2
          exact ⟨(hwf d2 (List.mem_cons_of_mem doc hd2)).1,
            (hwf d2 (List.mem_cons_of_mem doc hd2)).2,
            fun h => hpw.1 d2 hd2 h.symm⟩
        · exact upsertOne_absorb L doc
            (hwf doc (List.mem_cons_self doc rest)).1
            (hwf doc (List.mem_cons_self doc rest)).2
      · exact ih (upsertOne L d)
          (fun x hx => hwf x (List.mem_cons_of_mem d hx)) hpw.2 doc hdoc2

theorem foldl_upsert_fixed (docs : List Obj) :
    ∀ (L : List Obj), (∀ doc ∈ docs, upsertOne L doc = L) →
      docs.foldl upsertOne L = L := by
  induction docs with
  | nil => intro L _; rfl
  | cons d rest ih =>
      intro L h
      show rest.foldl upsertOne (upsertOne L d) = L
      rw [h d (List.mem_cons_self d rest)]
      exact ih L (fun doc hd => h doc (List.mem_cons_of_mem d hd))

theorem objSet_keys_nodup (o : Obj) (k : String) (v : Value)
    (h : (keys o).Nodup) : (keys (objSet o k v)).Nodup := by
  unfold objSet
  by_cases hc : (o.any (fun p => p.1 = k)) = true
  · rw [if_pos hc]
    have heq : keys (o.map (fun p => if p.1 = k then (k, v) else p)) = keys o := by
      unfold keys
      rw [List.map_map]
      apply listMapCongr
      intro p hp
      by_cases hpk : p.1 = k
      · simp [hpk]
      · simp [hpk]
    rw [heq]
    exact h
  · rw [if_neg hc]
    unfold keys
    rw [List.map_append]
    rw [List.nodup_append]
    refine ⟨h, List.nodup_singleton k, ?_⟩
    intro a ha hb
    have hak : a = k := by simpa using hb
    subst hak
    exact hc ((any_key_iff o a).mpr ha)

theorem objSpread_keys_nodup (ext : Obj) :
    ∀ (o : Obj), (keys o).Nodup → (keys (objSpread o ext)).Nodup := by
  induction ext with
  | nil => intro o h; exact h
  | cons q rest ih =>
      intro o h
      exact ih (objSet o q.1 q.2) (objSet_keys_nodup o q.1 q.2 h)

theorem processed_keys_nodup (now : Nat) (env : Envelope) :
    (keys (processFileMakerRecord now env)).Nodup := by
  unfold processFileMakerRecord
  exact objSpread_keys_nodup _ _ (objSpread_keys_nodup _ [] (by simp [keys]))

theorem processed_rid_mem (now : Nat) (env : Envelope) :
    "fileMakerRecordId" ∈ keys (processFileMakerRecord now env) := by
  unfold processFileMakerRecord
  exact mem_keys_objSpread_of_ext _ _ _ (by rw [keys_metaPairs]; decide)

theorem processed_field_pinned (now : Nat) (env : Envelope) (k v : String)
    (hnd : (env.fieldData.map Prod.fst).Nodup)
    (hdisj : ∀ a ∈ env.fieldData.map Prod.fst, a ∉ metaKeys)
    (hmem : (k, v) ∈ env.fieldData) :
    keyPinned (processFileMakerRecord now env) k (Value.str v) ∧
    k ∈ keys (processFileMakerRecord now env) := by
  unfold processFileMakerRecord
  set fd : Obj := env.fieldData.map (fun p => (p.1, Value.str p.2)) with hfd
  have hkeysfd : keys fd = env.fieldData.map Prod.fst := by
    simp [hfd, keys, List.map_map]
  have hndfd : (keys fd).Nodup := by rw [hkeysfd]; exact hnd
  have hmemfd : (k, Value.str v) ∈ fd :=
    List.mem_map.mpr ⟨(k, v), hmem, rfl⟩
  have hkmem : k ∈ keys fd :=
    List.mem_map.mpr ⟨(k, Value.str v), hmemfd, rfl⟩
  have hkdisj : k ∉ keys (metaPairs now env) := by
    rw [keys_metaPairs]
    exact hdisj k (by rw [← hkeysfd]; exact hkmem)
  have hpin : keyPinned (objSpread [] fd) k (Value.str v) :=
    objSpread_pinned_of_mem fd [] k (Value.str v)
      (pinned_of_nodupKeys fd k (Value.str v) hndfd hmemfd) hkmem
  exact ⟨objSpread_pinned_disjoint (metaPairs now env) _ k (Value.str v) hkdisj hpin,
    mem_keys_objSpread_mono (metaPairs now env) _ k
      (mem_keys_objSpread_of_ext fd [] k hkmem)⟩

/-- C4, counterexample part: the hub service save loop does not overwrite.
The fetched page carries the updated record (name b) for the recordId
already stored locally with name a; the unique index rejects the plain
insert, the stored document keeps name a, and no overwrite happens. And the
section upsert run is only literally idempotent at a fixed transform
instant: a second run at a later clock rewrites the bookkeeping timestamps,
so the collection is not left byte-for-byte unchanged. -/
theorem C4_counterexample :
    (hubDocOf hubEnvB).recordId = (hubDocOf hubEnvA).recordId ∧
    (hubDocOf hubEnvB).name = "b" ∧
    (syncHubs hubRemoteB false [hubDocOf hubEnvA]).2.1 = [hubDocOf hubEnvA] ∧
    (hubDocOf hubEnvA).name = "a" ∧
    sectionUpsertRun 1 [env0] (sectionUpsertRun 0 [env0] []) ≠
      sectionUpsertRun 0 [env0] [] := by
  refine ⟨by decide, by decide, by decide, by decide, by decide⟩

/-- C4, amended: for the section controller upsert load, a second run over
the same fetched set at the same transform instant leaves the collection
exactly unchanged (the envelopes having pairwise distinct recordIds), and
upserting a record whose fileMakerRecordId is already present keeps the
collection length (no second record with that id) while every document
carrying that id ends up with the updated field values. The hub and
student-enrollment service save loops do not have this property: they
attempt plain inserts which the unique recordId index rejects instead of
overwriting. -/
theorem C4_upsert_semantics (now : Nat) (envs : List Envelope) (coll : List Obj)
    (hdistinct : envs.Pairwise (fun a b => a.recordId ≠ b.recordId)) :
    sectionUpsertRun now envs (sectionUpsertRun now envs coll) =
      sectionUpsertRun now envs coll ∧
    (∀ (env : Envelope) (coll2 : List Obj),
      (env.fieldData.map Prod.fst).Nodup →
      (∀ a ∈ env.fieldData.map Prod.fst, a ∉ metaKeys) →
      (coll2.any (fun d => decide
        (objGet d "fileMakerRecordId" = some (Value.str env.recordId)))) = true →
      (upsertOne coll2 (processFileMakerRecord now env)).length = coll2.length ∧
      ∀ d ∈ upsertOne coll2 (processFileMakerRecord now env),
        objGet d "fileMakerRecordId" = some (Value.str env.recordId) →
        ∀ k v, (k, v) ∈ env.fieldData → objGet d k = some (Value.str v)) := by
  constructor
  · unfold sectionUpsertRun
    apply foldl_upsert_fixed
    intro doc hdoc
    apply foldl_upsert_run_absorbs (envs.map (processFileMakerRecord now)) coll
      ?hwf ?hpw doc hdoc
    case hwf =>
      intro d hd
      obtain ⟨e, he, rfl⟩ := List.mem_map.mp hd
      exact ⟨processed_keys_nodup now e, processed_rid_mem now e⟩
    case hpw =>
      rw [List.pairwise_map]
      apply List.Pairwise.imp ?_ hdistinct
      intro a b hab
      rw [processed_get_rid, processed_get_rid]
      simp [hab]
  · intro env coll2 hnd hdisj hc
    have hridv : objGet (processFileMakerRecord now env) "fileMakerRecordId" =
        some (Value.str env.recordId) := processed_get_rid now env
    have hc2 : (coll2.any (fun d => decide
        (objGet d "fileMakerRecordId" =
         objGet (processFileMakerRecord now env) "fileMakerRecordId"))) = true := by
      have hcond : (fun d : Obj => decide
          (objGet d "fileMakerRecordId" =
           objGet (processFileMakerRecord now env) "fileMakerRecordId")) =
          (fun d : Obj => decide
          (objGet d "fileMakerRecordId" = some (Value.str env.recordId))) := by
        funext d
        rw [hridv]
      rw [hcond]
      exact hc
    have h1 : upsertOne coll2 (processFileMakerRecord now env) =
        coll2.map (fun d =>
          if objGet d "fileMakerRecordId" =
             objGet (processFileMakerRecord now env) "fileMakerRecordId"
          then objSpread d (processFileMakerRecord now env) else d) := by
      unfold upsertOne
      rw [if_pos hc2]
    constructor
    · rw [h1, List.length_map]
    · intro d hd hdr k v hkv
      rw [h1] at hd
      obtain ⟨x, hx, hxe⟩ := List.mem_map.mp hd
      by_cases hm : objGet x "fileMakerRecordId" =
          objGet (processFileMakerRecord now env) "fileMakerRecordId"
      · rw [if_pos hm] at hxe
        subst hxe
        obtain ⟨hpinf, hkmem⟩ := processed_field_pinned now env k v hnd hdisj hkv
        exact objGet_objSpread_of_mem (processFileMakerRecord now env) x k
          (Value.str v) hpinf hkmem
      · rw [if_neg hm] at hxe
        subst hxe
        exact absurd (hdr.trans hridv.symm) hm

/-- C4, witness: idempotence and in-place overwrite evaluated on the
concrete envelope env0. -/
theorem C4_upsert_semantics_witness :
    sectionUpsertRun 0 [env0] (sectionUpsertRun 0 [env0] []) =
      sectionUpsertRun 0 [env0] [] ∧
    (upsertOne [processFileMakerRecord 0 env0] (processFileMakerRecord 0 env0)).length =
      ([processFileMakerRecord 0 env0] : List Obj).length :=
  have h := C4_upsert_semantics 0 [env0] [] (by simp)
  ⟨h.1, (h.2 env0 [processFileMakerRecord 0 env0]
    (by decide) (by decide) (by decide)).1⟩

end CpsSync
